import Mathlib

/-!
Verification of the asyncvnc core (src/asyncvnc.py): a shallow embedding of
the RFB/VNC framebuffer decoder (`Video`), the screen-detection algorithm
(`Video.detect_screens`) and the client message loop (`Client.read`),
together with theorems settling the specified behavioural claims.

Modelling conventions:
* numpy byte arrays become total functions `Nat → Nat → Nat` (values are bytes,
  0..255, at in-range indices); the pixel buffer is `Nat → Nat → Nat → Nat`
  (row, column, channel).
* numpy `int8` arithmetic (the padded mask and its first differences) is
  modelled exactly: 8-bit two's complement wrapping (`int8`, `int8Sub`,
  `int8And`).
* Python `float` scores are modelled as `ℚ`; every score value appearing in
  the claims is exactly representable, and the score formula only multiplies
  integers by dyadic rationals coming from `Fraction`, so no rounding is lost
  on the claims proved here.
* The asyncio byte stream becomes an explicit `List Nat` threaded through the
  reading functions; exceptions become an `Option VncError` component of the
  result, with the mutated object state returned alongside (matching the fact
  that a Python exception leaves already-performed mutations in place).
* The zlib decompressor is kept abstract, as the `decompress` callable field
  of `Video`, exactly as in the source; the claims proved here are independent
  of its behaviour.
* The `while True` detection loop is realised with explicit fuel
  (`detectLoopFuel`); `filledArea st + 1` rounds are proved sufficient, which
  is the termination argument of the source.
-/

/-! ### 8-bit two's complement arithmetic (numpy int8) -/

/-- Two's complement byte pattern of an integer (numpy int8 storage). -/
def toByte (a : Int) : Nat := (a % 256).toNat

/-- Signed value of a byte pattern (numpy int8 read-back). -/
def ofByte (n : Nat) : Int := if n < 128 then (n : Int) else (n : Int) - 256

/-- Wrap an integer to int8 (numpy astype int8). -/
def int8 (a : Int) : Int := ofByte (toByte a)

/-- int8 subtraction with wrap-around. -/
def int8Sub (a b : Int) : Int := int8 (a - b)

/-- int8 bitwise AND: bitwise on the two's complement byte patterns. -/
def int8And (a b : Int) : Int := ofByte (Nat.land (toByte a) (toByte b))

/-- The corner test of detect_screens: the int8 AND of two first differences
compared equal to -1 (source line with a comment about ANDing perpendicular
pairs of differences). -/
def cornerTest (d1 d2 : Int) : Bool := int8And d1 d2 == -1

/-! ### The working mask of detect_screens

`MaskState` is the padded binarized mask: `p` is the (mH+2)×(mW+2) int8 array
produced by `np.pad(mask // 255, ((1,1),(1,1))).astype(np.int8)`; indices
outside the padded range are never accessed by the algorithm and are kept 0.
`maskA`..`maskD` are the four unit-offset views `mask[1:,1:]`, `mask[1:,:-1]`,
`mask[:-1,1:]`, `mask[:-1,:-1]`, all shape (mH+1)×(mW+1), aliasing `p`. -/

structure MaskState where
  mH : Nat
  mW : Nat
  p : Nat → Nat → Int

def maskA (st : MaskState) (i j : Nat) : Int := st.p (i + 1) (j + 1)

def maskB (st : MaskState) (i j : Nat) : Int := st.p (i + 1) j

def maskC (st : MaskState) (i j : Nat) : Int := st.p i (j + 1)

def maskD (st : MaskState) (i j : Nat) : Int := st.p i j

/-- Top-left corner: `mask_b - mask_a & mask_c - mask_a == -1`. -/
def topLeftB (st : MaskState) (i j : Nat) : Bool :=
  cornerTest (int8Sub (maskB st i j) (maskA st i j)) (int8Sub (maskC st i j) (maskA st i j))

/-- Top-right corner: `mask_a - mask_b & mask_d - mask_b == -1`. -/
def topRightB (st : MaskState) (i j : Nat) : Bool :=
  cornerTest (int8Sub (maskA st i j) (maskB st i j)) (int8Sub (maskD st i j) (maskB st i j))

/-- Bottom-left corner: `mask_d - mask_c & mask_a - mask_c == -1`. -/
def bottomLeftB (st : MaskState) (i j : Nat) : Bool :=
  cornerTest (int8Sub (maskD st i j) (maskC st i j)) (int8Sub (maskA st i j) (maskC st i j))

/-- Bottom-right corner: `mask_c - mask_d & mask_b - mask_d == -1`. -/
def bottomRightB (st : MaskState) (i j : Nat) : Bool :=
  cornerTest (int8Sub (maskC st i j) (maskD st i j)) (int8Sub (maskB st i j) (maskD st i j))

/-- All grid coordinates of an rows×cols array in row-major order (the order
of numpy argwhere). -/
def gridPoints (rows cols : Nat) : List (Nat × Nat) :=
  (List.range rows).flatMap (fun i => (List.range cols).map (fun j => (i, j)))

/-- np.argwhere of a boolean predicate over an rows×cols array. -/
def argwhere (P : Nat → Nat → Bool) (rows cols : Nat) : List (Nat × Nat) :=
  (gridPoints rows cols).filter (fun q => P q.1 q.2)

/-! ### Rectangle reconstruction from corners -/

/-- A candidate rectangle (x0, y0, x1, y1), as the tuples added to `rects`. -/
abbrev Rect := Nat × Nat × Nat × Nat

/-- Adding one tuple to the `rects` set, modelled as an order-preserving
deduplicating insertion. -/
def addRect (rs : List Rect) (r : Rect) : List Rect :=
  if r ∈ rs then rs else rs ++ [r]

/-- First conditional add of the loop body: top edge ab with left edge ac. -/
def rectsAdd1 (a b c : Nat × Nat) (rs : List Rect) : List Rect :=
  if (a.1 = b.1 ∧ a.2 < b.2) ∧ (a.2 = c.2 ∧ a.1 < c.1) then
    addRect rs (a.2, a.1, b.2, c.1)
  else rs

/-- Second conditional add: top edge ab with right edge bd. -/
def rectsAdd2 (a b d : Nat × Nat) (rs : List Rect) : List Rect :=
  if (a.1 = b.1 ∧ a.2 < b.2) ∧ (b.2 = d.2 ∧ b.1 < d.1) then
    addRect rs (a.2, a.1, d.2, d.1)
  else rs

/-- Third conditional add: bottom edge cd with left edge ac. -/
def rectsAdd3 (a c d : Nat × Nat) (rs : List Rect) : List Rect :=
  if (c.1 = d.1 ∧ c.2 < d.2) ∧ (a.2 = c.2 ∧ a.1 < c.1) then
    addRect rs (a.2, a.1, d.2, d.1)
  else rs

/-- Fourth conditional add: bottom edge cd with right edge bd. -/
def rectsAdd4 (b c d : Nat × Nat) (rs : List Rect) : List Rect :=
  if (c.1 = d.1 ∧ c.2 < d.2) ∧ (b.2 = d.2 ∧ b.1 < d.1) then
    addRect rs (c.2, b.1, d.2, d.1)
  else rs

/-- The body of the corner cross-product loop for one 4-tuple (a, b, c, d):
the four alignment tests and the up to four `rects.add` calls, in source
order. -/
def rectsFrom (a b c d : Nat × Nat) (rs : List Rect) : List Rect :=
  rectsAdd4 b c d (rectsAdd3 a c d (rectsAdd2 a b d (rectsAdd1 a b c rs)))

/-- itertools.product over the four corner classes, feeding `rectsFrom`. -/
def rectsOf (tls trs bls brs : List (Nat × Nat)) : List Rect :=
  tls.foldl (fun rs a =>
    trs.foldl (fun rs b =>
      bls.foldl (fun rs c =>
        brs.foldl (fun rs d => rectsFrom a b c d rs) rs) rs) rs) []

/-! ### Screen and its score -/

structure Screen where
  x : Nat
  y : Nat
  width : Nat
  height : Nat
deriving DecidableEq

/-- Screen construction from a rects tuple:
`Screen(int(x0), int(y0), int(x1 - x0), int(y1 - y0))`. -/
def toScreen (r : Rect) : Screen :=
  ⟨r.1, r.2.1, r.2.2.1 - r.1, r.2.2.2 - r.2.1⟩

/-- The common screen aspect ratios. -/
def screen_ratios : List ℚ :=
  [3 / 2, 4 / 3, 16 / 10, 16 / 9, 32 / 9, 64 / 27]

/-- The convergent loop of CPython Fraction.limit_denominator, specialised to
non-negative fractions: state (p0, q0, p1, q1) with remaining fraction n/d;
returns the state at loop exit. -/
def ldLoop (md p0 q0 p1 q1 n d : Nat) : Nat × Nat × Nat × Nat :=
  if hd : d = 0 then (p0, q0, p1, q1)
  else
    let a := n / d
    let q2 := q0 + a * q1
    if md < q2 then (p0, q0, p1, q1)
    else ldLoop md p1 q1 (p0 + a * p1) q2 d (n % d)
termination_by d
decreasing_by exact Nat.mod_lt _ (Nat.pos_of_ne_zero hd)

/-- CPython Fraction.limit_denominator for a non-negative rational (the only
use sites are the positive ratios width/height and height/width). -/
def limit_denominator (q : ℚ) (md : Nat) : ℚ :=
  if q.den ≤ md then q
  else
    let r := ldLoop md 0 1 1 0 q.num.toNat q.den
    let k := (md - r.2.1) / r.2.2.2
    let bound1 : ℚ := ((r.1 + k * r.2.2.1 : Nat) : ℚ) / ((r.2.1 + k * r.2.2.2 : Nat) : ℚ)
    let bound2 : ℚ := ((r.2.2.1 : Nat) : ℚ) / ((r.2.2.2 : Nat) : ℚ)
    if |bound2 - q| ≤ |bound1 - q| then bound2 else bound1

/-- Screen.score: pixel area, multiplied by `min(ratios) * 0.5` when neither
approximated aspect ratio is a common screen ratio. -/
def Screen.score (s : Screen) : ℚ :=
  let value : ℚ := (s.width : ℚ) * (s.height : ℚ)
  let r1 := limit_denominator ((s.width : ℚ) / (s.height : ℚ)) 64
  let r2 := limit_denominator ((s.height : ℚ) / (s.width : ℚ)) 64
  if r1 ∈ screen_ratios ∨ r2 ∈ screen_ratios then value
  else value * (min r1 r2 * (1 / 2))

/-- Stable insertion of a screen into a list sorted by descending score:
the inserted element goes in front of the first element whose score is not
larger, which reproduces the stable descending sort of list.sort. -/
def insertScreen (s : Screen) : List Screen → List Screen
  | [] => [s]
  | t :: ts => if t.score ≤ s.score then s :: t :: ts else t :: insertScreen s ts

/-- Stable sort by descending score (candidates.sort with reverse order). -/
def sortScreens : List Screen → List Screen
  | [] => []
  | s :: ss => insertScreen s (sortScreens ss)

/-! ### Acceptance, consumption, and the detection loop -/

/-- The list lo, lo+1, ..., hi-1. -/
def rangeL (lo hi : Nat) : List Nat := (List.range (hi - lo)).map (fun k => lo + k)

/-- mask_a[screen.slices].all(): every cell of the screen region of mask_a is
non-zero; numpy slicing clips the region to the (mH+1)×(mW+1) shape of
mask_a, and all() over an empty selection is true. -/
def regionAll (st : MaskState) (s : Screen) : Bool :=
  (rangeL s.y (min (s.y + s.height) (st.mH + 1))).all fun i =>
    (rangeL s.x (min (s.x + s.width) (st.mW + 1))).all fun j =>
      st.p (i + 1) (j + 1) != 0

/-- mask_a[screen.slices] = 0: zero the (clipped) region of mask_a inside the
shared padded array. -/
def zeroRegion (st : MaskState) (s : Screen) : MaskState :=
  { st with p := fun r c =>
      if s.y + 1 ≤ r ∧ r ≤ min (s.y + s.height) (st.mH + 1) ∧
         s.x + 1 ≤ c ∧ c ≤ min (s.x + s.width) (st.mW + 1)
      then 0 else st.p r c }

/-- Number of non-zero cells of mask_a (the filled area of the working mask,
the measure that each successful round strictly decreases). -/
def filledArea (st : MaskState) : Nat :=
  ((gridPoints (st.mH + 1) (st.mW + 1)).filter
    (fun q => st.p (q.1 + 1) (q.2 + 1) != 0)).length

/-- One round of the while loop: corner detection on the current working mask,
rectangle reconstruction, dedup, sort by descending score. -/
def candidatesOf (st : MaskState) : List Screen :=
  sortScreens ((rectsOf
    (argwhere (topLeftB st) (st.mH + 1) (st.mW + 1))
    (argwhere (topRightB st) (st.mH + 1) (st.mW + 1))
    (argwhere (bottomLeftB st) (st.mH + 1) (st.mW + 1))
    (argwhere (bottomRightB st) (st.mH + 1) (st.mW + 1))).map toScreen)

/-- One round of the while loop: the first candidate whose region is entirely
filled is accepted and its region is consumed; if none, the loop finishes. -/
def detectRound (st : MaskState) : Option (Screen × MaskState) :=
  match (candidatesOf st).find? (fun s => regionAll st s) with
  | some s => some (s, zeroRegion st s)
  | none => none

/-- The while loop, with explicit fuel. -/
def detectLoopFuel : Nat → MaskState → List Screen
  | 0, _ => []
  | fuel + 1, st =>
    match detectRound st with
    | none => []
    | some (s, st') => s :: detectLoopFuel fuel st'

/-- The while loop of detect_screens; `filledArea st + 1` rounds are proved
sufficient below (each successful round strictly decreases the filled area). -/
def detectLoop (st : MaskState) : List Screen := detectLoopFuel (filledArea st + 1) st

/-- mask // 255. -/
def binarize (a : Nat) : Nat := a / 255

/-- Initial working mask of detect_screens from the alpha channel:
binarization by integer division by 255, 1-cell zero padding, int8 cast. -/
def initMask (mH mW : Nat) (alpha : Nat → Nat → Nat) : MaskState :=
  ⟨mH, mW, fun r c =>
    if 1 ≤ r ∧ r ≤ mH ∧ 1 ≤ c ∧ c ≤ mW
    then int8 ((binarize (alpha (r - 1) (c - 1)) : Nat) : Int) else 0⟩

/-- Fully filled binarized padded mask (used as proof fixture). -/
def fullMaskState (mH mW : Nat) : MaskState :=
  ⟨mH, mW, fun r c => if 1 ≤ r ∧ r ≤ mH ∧ 1 ≤ c ∧ c ≤ mW then 1 else 0⟩

/-! ### Colour channel orders and the video buffer -/

/-- The four supported channel orders (the values of the video_modes table). -/
inductive Mode
  | bgra
  | rgba
  | argb
  | abgr
deriving DecidableEq

/-- The mode string as a list of channel characters. -/
def Mode.chars : Mode → List Char
  | .bgra => ['b', 'g', 'r', 'a']
  | .rgba => ['r', 'g', 'b', 'a']
  | .argb => ['a', 'r', 'g', 'b']
  | .abgr => ['a', 'b', 'g', 'r']

/-- self.mode.index(c): position of channel c in the mode string. -/
def Mode.index (m : Mode) (c : Char) : Nat := m.chars.indexOf c

/-- A pixel buffer: row, column, channel to byte value. -/
def Buffer := Nat → Nat → Nat → Nat

/-- A numpy array result with explicit 2D shape (the channel count is 4). -/
structure NDArray where
  rows : Nat
  cols : Nat
  val : Buffer

/-- The Video dataclass: stream reader and writer are threaded explicitly by
the reading functions, the zlib decompressor is the abstract callable field. -/
structure Video where
  decompress : List Nat → List Nat
  name : String
  width : Nat
  height : Nat
  mode : Mode
  data : Option Buffer

/-- Video.is_complete: a buffer exists and data[:, :, alpha].all() holds,
that is every alpha byte of the buffer is non-zero. -/
def Video.is_complete (v : Video) : Bool :=
  match v.data with
  | none => false
  | some d =>
    (List.range v.height).all fun i =>
      (List.range v.width).all fun j => d i j (v.mode.index 'a') != 0

/-- Video.as_rgba: the buffer permuted into R,G,B,A channel order; an
all-zero buffer of the negotiated shape when no buffer exists. -/
def Video.as_rgba (v : Video) : NDArray :=
  match v.data with
  | none => ⟨v.height, v.width, fun _ _ _ => 0⟩
  | some d =>
    if v.mode = Mode.rgba then ⟨v.height, v.width, d⟩
    else if v.mode = Mode.abgr then ⟨v.height, v.width, fun i j k => d i j (3 - k)⟩
    else ⟨v.height, v.width, fun i j k =>
      if k = 0 then d i j (v.mode.index 'r')
      else if k = 1 then d i j (v.mode.index 'g')
      else if k = 2 then d i j (v.mode.index 'b')
      else if k = 3 then d i j (v.mode.index 'a')
      else 0⟩

/-- Video.detect_screens: empty without a buffer, otherwise the detection
loop on the binarized padded alpha mask. -/
def Video.detect_screens (v : Video) : List Screen :=
  match v.data with
  | none => []
  | some d => detectLoop (initMask v.height v.width (fun i j => d i j (v.mode.index 'a')))

/-! ### Stream reading -/

/-- Errors of the reading functions: IncompleteReadError from readexactly,
ValueError(encoding) for an unsupported rectangle encoding, the numpy size or
shape error for a payload that does not fit, ValueError for an unrecognized
update type code. -/
inductive VncError
  | incomplete
  | badEncoding (code : Nat)
  | shapeMismatch
  | badUpdateType (code : Nat)
deriving DecidableEq

/-- Big-endian integer value of a byte list (int.from_bytes big). -/
def beInt (bs : List Nat) : Nat := bs.foldl (fun acc b => acc * 256 + b) 0

/-- reader.readexactly(n): exactly n bytes or IncompleteReadError (the stream
is exhausted when it fails). -/
def readexactly (n : Nat) (s : List Nat) : Except VncError (List Nat × List Nat) :=
  if n ≤ s.length then .ok (s.take n, s.drop n) else .error .incomplete

/-- read_int(reader, n). -/
def read_int (n : Nat) (s : List Nat) : Except VncError (Nat × List Nat) :=
  (readexactly n s).map fun r => (beInt r.1, r.2)

/-- Writing one decoded rectangle into the buffer: payload bytes go to the
sub-rectangle in row-major order, then the alpha channel of that
sub-rectangle is unconditionally forced to 255. -/
def applyRect (d : Buffer) (aIdx x y width height : Nat) (data : List Nat) : Buffer :=
  fun i j c =>
    if y ≤ i ∧ i < y + height ∧ x ≤ j ∧ j < x + width then
      if c = aIdx then 255
      else if c < 4 then data.getD (((i - y) * width + (j - x)) * 4 + c) 0
      else d i j c
    else d i j c

/-- The buffer-update tail of Video.read: allocate the zero buffer on first
use, then check that the payload is large enough and the rectangle fits (a
numpy size or broadcast error otherwise), then write. -/
def Video.writeRect (v : Video) (x y width height : Nat) (data s : List Nat) :
    Option VncError × Video × List Nat :=
  let d0 : Buffer := match v.data with
    | none => fun _ _ _ => 0
    | some d => d
  let v1 : Video := { v with data := some d0 }
  if height * width * 4 ≤ data.length then
    if y + height ≤ v.height ∧ x + width ≤ v.width then
      (none, { v1 with
        data := some (applyRect d0 (v.mode.index 'a') x y width height data) }, s)
    else (some .shapeMismatch, v1, s)
  else (some .shapeMismatch, v1, s)

/-- Video.read: one rectangle header (x, y, width, height, encoding), then the
raw or zlib payload, then the buffer update. Result: optional error, the
video state after the call, the remaining stream. -/
def Video.read (v : Video) (s0 : List Nat) : Option VncError × Video × List Nat :=
  match read_int 2 s0 with
  | .error e => (some e, v, [])
  | .ok (x, s1) =>
  match read_int 2 s1 with
  | .error e => (some e, v, [])
  | .ok (y, s2) =>
  match read_int 2 s2 with
  | .error e => (some e, v, [])
  | .ok (width, s3) =>
  match read_int 2 s3 with
  | .error e => (some e, v, [])
  | .ok (height, s4) =>
  match read_int 4 s4 with
  | .error e => (some e, v, [])
  | .ok (encoding, s5) =>
  if encoding = 0 then
    match readexactly (height * width * 4) s5 with
    | .error e => (some e, v, [])
    | .ok (data, s6) => v.writeRect x y width height data s6
  else if encoding = 6 then
    match read_int 4 s5 with
    | .error e => (some e, v, [])
    | .ok (length, s6) =>
    match readexactly length s6 with
    | .error e => (some e, v, [])
    | .ok (zdata, s7) => v.writeRect x y width height (v.decompress zdata) s7
  else (some (.badEncoding encoding), v, s5)

/-- The rectangle header fields (x, y, width, height) at the front of a
stream, as Video.read parses them. -/
def rectHeader (s : List Nat) : Nat × Nat × Nat × Nat :=
  (beInt (s.take 2), beInt ((s.drop 2).take 2),
   beInt ((s.drop 4).take 2), beInt ((s.drop 6).take 2))

/-- The encoding field of the rectangle header at the front of a stream. -/
def headerEncoding (s : List Nat) : Nat := beInt ((s.drop 8).take 4)

/-- A sequence of Video.read calls, each on its own stream; defined only when
every call succeeds. -/
def readSeq (v : Video) : List (List Nat) → Option Video
  | [] => some v
  | s :: rest =>
    match Video.read v s with
    | (none, v', _) => readSeq v' rest
    | (some _, _, _) => none

/-- Pixel (i, j) lies inside the rectangle announced by the header at the
front of stream s. -/
def inHeaderRect (s : List Nat) (i j : Nat) : Prop :=
  (rectHeader s).2.1 ≤ i ∧ i < (rectHeader s).2.1 + (rectHeader s).2.2.2 ∧
    (rectHeader s).1 ≤ j ∧ j < (rectHeader s).1 + (rectHeader s).2.2.1

/-- Pixel (i, j) lies inside the rectangle announced by the header of at
least one of the streams. -/
def coveredBy (ss : List (List Nat)) (i j : Nat) : Prop :=
  ∃ s ∈ ss, inHeaderRect s i j

/-! ### The client message loop -/

/-- Update from server to client; Video is the only recognized variant. -/
inductive UpdateType
  | VIDEO
deriving DecidableEq

/-- The VNC client dataclass (the stream is threaded explicitly). -/
structure Client where
  video : Video

/-- The n calls of self.video.read() for one framebuffer update message. -/
def videoReadLoop (v : Video) : Nat → List Nat → Option VncError × Video × List Nat
  | 0, s => (none, v, s)
  | n + 1, s =>
    match Video.read v s with
    | (some e, v', s') => (some e, v', s')
    | (none, v', s') => videoReadLoop v' n s'

/-- Client.read: one update-type byte; an unrecognized code raises
immediately (the enum conversion), code 0 reads one padding byte, a 2-byte
rectangle count, then that many video rectangle reads, and returns the
Video update type. -/
def Client.read (c : Client) (s : List Nat) :
    Except VncError UpdateType × Client × List Nat :=
  match read_int 1 s with
  | .error e => (.error e, c, [])
  | .ok (t, s1) =>
    if t = 0 then
      match readexactly 1 s1 with
      | .error e => (.error e, c, [])
      | .ok (_, s2) =>
      match read_int 2 s2 with
      | .error e => (.error e, c, [])
      | .ok (n, s3) =>
        match videoReadLoop c.video n s3 with
        | (some e, v', s') => (.error e, { video := v' }, s')
        | (none, v', s') => (.ok .VIDEO, { video := v' }, s')
    else (.error (.badUpdateType t), c, s1)

/-! ### Error classifiers used by the statements -/

def isBadEncodingErr : Option VncError → Bool
  | some (.badEncoding _) => true
  | _ => false

def isBadUpdateErr : Except VncError UpdateType → Bool
  | .error (.badUpdateType _) => true
  | _ => false

/-- Score formula exactly as the claim states it: area when one of the two
approximated ratios is canonical, otherwise area times 0.5 times the smaller
approximated ratio. -/
def scoreSpec (w h : Nat) : ℚ :=
  let r1 := limit_denominator ((w : ℚ) / (h : ℚ)) 64
  let r2 := limit_denominator ((h : ℚ) / (w : ℚ)) 64
  if r1 ∈ screen_ratios ∨ r2 ∈ screen_ratios then ((w : ℚ) * (h : ℚ))
  else ((w : ℚ) * (h : ℚ)) * ((1 / 2) * min r1 r2)

/-- Position, in R,G,B,A order, of the channel stored at position k of a
mode's buffer: the inverse of the channel gather of as_rgba. -/
def Mode.invPerm (m : Mode) (k : Nat) : Nat :=
  Mode.rgba.chars.indexOf (m.chars.getD k 'z')

/-! ### Concrete fixtures used by witnesses and counterexamples -/

/-- Fully filled 2×2 working mask. -/
def fullSt2 : MaskState := fullMaskState 2 2

/-- 1×1 rgba video whose single pixel has every byte equal to 128. -/
def v128 : Video := ⟨fun bs => bs, "flat", 1, 1, Mode.rgba, some (fun _ _ _ => 128)⟩

/-- 1×1 rgba video with no allocated buffer. -/
def vNone : Video := ⟨fun bs => bs, "fresh", 1, 1, Mode.rgba, none⟩

/-- 2×2 rgba video whose buffer is entirely 255. -/
def vFull2 : Video := ⟨fun bs => bs, "full", 2, 2, Mode.rgba, some (fun _ _ _ => 255)⟩

/-- 2×2 bgra video with a distinguishable buffer. -/
def vBgra2 : Video :=
  ⟨fun bs => bs, "bgra", 2, 2, Mode.bgra, some (fun i j c => 16 * i + 4 * j + c)⟩

/-- Rectangle header x=0 y=0 w=1 h=1 encoding=0 (Raw) with the 4 payload
bytes missing. -/
def sTruncRaw : List Nat := [0, 0, 0, 0, 0, 1, 0, 1, 0, 0, 0, 0]

/-- Rectangle header x=0 y=0 w=1 h=1 with unsupported encoding 5. -/
def sBadEnc : List Nat := [0, 0, 0, 0, 0, 1, 0, 1, 0, 0, 0, 5]

/-- Complete Raw rectangle x=0 y=0 w=1 h=1 with payload bytes 7 7 7 7. -/
def sOneRect : List Nat := [0, 0, 0, 0, 0, 1, 0, 1, 0, 0, 0, 0, 7, 7, 7, 7]

/-- Client over the fresh 1×1 video. -/
def cFresh : Client := ⟨vNone⟩

/-- Update message with type byte 0 and nothing after it. -/
def sType0Trunc : List Nat := [0]

/-- Update message with unrecognized type byte 1. -/
def sType1 : List Nat := [1, 9, 9]

/-- Alpha channel filled exactly on the two regions (0,0,800,600) and
(800,0,800,600) of a 1600×600 buffer. -/
def twoRegionAlpha (i j : Nat) : Nat :=
  if (i < 600 ∧ j < 800) ∨ (i < 600 ∧ 800 ≤ j ∧ j < 1600) then 255 else 0

/-- 1600×600 rgba video whose alpha channel is `twoRegionAlpha`. -/
def twoRegionVideo : Video :=
  ⟨fun bs => bs, "dual", 1600, 600, Mode.rgba,
   some (fun i j c => if c = 3 then twoRegionAlpha i j else 0)⟩

/-- Well-formedness of a rects tuple produced by corner reconstruction over
an (mH+1)×(mW+1) corner grid: positive extent, within the original mask. -/
def rectOK (mH mW : Nat) (r : Rect) : Prop :=
  r.1 < r.2.2.1 ∧ r.2.1 < r.2.2.2 ∧ r.2.2.1 ≤ mW ∧ r.2.2.2 ≤ mH

/-! ### Basic int8 and corner-test lemmas -/

theorem int8Sub_01 {a b : Int} (ha : a = 0 ∨ a = 1) (hb : b = 0 ∨ b = 1) :
    int8Sub a b = a - b := by
  rcases ha with rfl | rfl <;> rcases hb with rfl | rfl <;> decide

theorem cornerTest_diff {x y z : Int} (hx : x = 0 ∨ x = 1) (hy : y = 0 ∨ y = 1)
    (hz : z = 0 ∨ z = 1) :
    cornerTest (int8Sub y x) (int8Sub z x) = true ↔ (y - x = -1 ∧ z - x = -1) := by
  rcases hx with rfl | rfl <;> rcases hy with rfl | rfl <;> rcases hz with rfl | rfl <;> decide

theorem cornerTest_val {x y z : Int} (hx : x = 0 ∨ x = 1) (hy : y = 0 ∨ y = 1)
    (hz : z = 0 ∨ z = 1) :
    cornerTest (int8Sub y x) (int8Sub z x) = true ↔ (x = 1 ∧ y = 0 ∧ z = 0) := by
  rcases hx with rfl | rfl <;> rcases hy with rfl | rfl <;> rcases hz with rfl | rfl <;> decide

/-! ### Grid and argwhere lemmas -/

theorem mem_gridPoints {rows cols : Nat} {q : Nat × Nat} :
    q ∈ gridPoints rows cols ↔ q.1 < rows ∧ q.2 < cols := by
  cases q with
  | mk i j => simp [gridPoints]

theorem gridPoints_nodup (rows cols : Nat) : (gridPoints rows cols).Nodup := by
  rw [gridPoints, List.nodup_flatMap]
  constructor
  · intro i _
    exact (List.nodup_range cols).map (fun a b h => by simpa using h)
  · refine List.pairwise_lt_range rows |>.imp ?_
    intro i i' hii q hq hq'
    simp only [List.mem_map, List.mem_range] at hq hq'
    obtain ⟨j, _, rfl⟩ := hq
    obtain ⟨j', _, hj'⟩ := hq'
    exact absurd (congrArg Prod.fst hj'.symm) (by simpa using hii.ne)

theorem mem_argwhere {P : Nat → Nat → Bool} {rows cols : Nat} {q : Nat × Nat} :
    q ∈ argwhere P rows cols ↔ q.1 < rows ∧ q.2 < cols ∧ P q.1 q.2 = true := by
  rw [argwhere, List.mem_filter, mem_gridPoints]
  tauto

theorem eq_singleton_of_mem_unique {α : Type} {l : List α} (hn : l.Nodup) {a : α}
    (ha : a ∈ l) (hall : ∀ b ∈ l, b = a) : l = [a] := by
  induction l with
  | nil => cases ha
  | cons x xs ih =>
    have hx : x = a := hall x (List.mem_cons_self x xs)
    subst hx
    have hxs : xs = [] := by
      cases hxs : xs with
      | nil => rfl
      | cons y ys =>
        exfalso
        have hy : y ∈ xs := by rw [hxs]; exact List.mem_cons_self y ys
        have : y = x := hall y (List.mem_cons_of_mem _ hy)
        exact (List.nodup_cons.mp hn).1 (this ▸ hy)
    rw [hxs]

theorem argwhere_eq_singleton {P : Nat → Nat → Bool} {rows cols i0 j0 : Nat}
    (h0 : i0 < rows) (h1 : j0 < cols)
    (hP : ∀ i j, i < rows → j < cols → (P i j = true ↔ (i = i0 ∧ j = j0))) :
    argwhere P rows cols = [(i0, j0)] := by
  refine eq_singleton_of_mem_unique ((gridPoints_nodup rows cols).filter _) ?_ ?_
  · exact mem_argwhere.mpr ⟨h0, h1, (hP i0 j0 h0 h1).mpr ⟨rfl, rfl⟩⟩
  · intro b hb
    obtain ⟨hb1, hb2, hb3⟩ := mem_argwhere.mp hb
    obtain ⟨h, h'⟩ := (hP b.1 b.2 hb1 hb2).mp hb3
    exact Prod.ext h h'

theorem argwhere_eq_nil {P : Nat → Nat → Bool} {rows cols : Nat}
    (hP : ∀ i j, i < rows → j < cols → P i j = false) :
    argwhere P rows cols = [] := by
  rw [argwhere, List.filter_eq_nil_iff]
  intro q hq
  obtain ⟨h1, h2⟩ := mem_gridPoints.mp hq
  simp [hP q.1 q.2 h1 h2]

/-! ### Filter counting lemmas -/

theorem filter_length_le_mono {α : Type} {l : List α} {f g : α → Bool}
    (h : ∀ x ∈ l, g x = true → f x = true) :
    (l.filter g).length ≤ (l.filter f).length := by
  induction l with
  | nil => simp
  | cons a l ih =>
    have ih' := ih (fun x hx => h x (List.mem_cons_of_mem _ hx))
    by_cases hg : g a = true
    · rw [List.filter_cons_of_pos hg, List.filter_cons_of_pos (h a (List.mem_cons_self a l) hg)]
      simpa using ih'
    · rw [List.filter_cons_of_neg (by simpa using hg)]
      cases hf : f a
      · rw [List.filter_cons_of_neg (by simp [hf])]
        exact ih'
      · rw [List.filter_cons_of_pos hf]
        exact Nat.le_succ_of_le ih'

theorem filter_length_lt {α : Type} {l : List α} {f g : α → Bool}
    (hmono : ∀ x ∈ l, g x = true → f x = true) (x0 : α) (hx0 : x0 ∈ l)
    (hf : f x0 = true) (hg : g x0 = false) :
    (l.filter g).length < (l.filter f).length := by
  induction l with
  | nil => cases hx0
  | cons a l ih =>
    have hmono' : ∀ x ∈ l, g x = true → f x = true :=
      fun x hx => hmono x (List.mem_cons_of_mem _ hx)
    rcases List.mem_cons.mp hx0 with rfl | hx0'
    · rw [List.filter_cons_of_pos hf, List.filter_cons_of_neg (by simp [hg])]
      exact Nat.lt_succ_of_le (filter_length_le_mono hmono')
    · cases hga : g a
      · rw [List.filter_cons_of_neg (by simp [hga])]
        cases hfa : f a
        · rw [List.filter_cons_of_neg (by simp [hfa])]
          exact ih hmono' hx0'
        · rw [List.filter_cons_of_pos hfa]
          exact Nat.lt_succ_of_lt (ih hmono' hx0')
      · rw [List.filter_cons_of_pos hga, List.filter_cons_of_pos (hmono a (List.mem_cons_self a l) hga)]
        exact Nat.succ_lt_succ (ih hmono' hx0')

/-! ### Bounds on reconstructed rectangles -/

theorem addRect_OK {mH mW : Nat} {rs : List Rect} {r : Rect}
    (hrs : ∀ u ∈ rs, rectOK mH mW u) (hr : rectOK mH mW r) :
    ∀ u ∈ addRect rs r, rectOK mH mW u := by
  intro u hu
  rw [addRect] at hu
  split at hu
  · exact hrs u hu
  · rcases List.mem_append.mp hu with h | h
    · exact hrs u h
    · rw [List.mem_singleton.mp h]
      exact hr


theorem mem_addRect {rs : List Rect} {r u : Rect} (h : u ∈ addRect rs r) :
    u ∈ rs ∨ u = r := by
  rw [addRect] at h
  split at h
  · exact Or.inl h
  · rcases List.mem_append.mp h with h | h
    · exact Or.inl h
    · exact Or.inr (List.mem_singleton.mp h)

theorem mem_rectStep {P : Prop} [Decidable P] {rs : List Rect} {r u : Rect}
    (h : u ∈ (if P then addRect rs r else rs)) : u ∈ rs ∨ (P ∧ u = r) := by
  split at h
  case isTrue hp =>
    rcases mem_addRect h with h | h
    · exact Or.inl h
    · exact Or.inr ⟨hp, h⟩
  case isFalse _ => exact Or.inl h

theorem rectsFrom_OK {mH mW : Nat} {a b c d : Nat × Nat} {rs : List Rect}
    (ha : a.1 ≤ mH ∧ a.2 ≤ mW) (hb : b.1 ≤ mH ∧ b.2 ≤ mW)
    (hc : c.1 ≤ mH ∧ c.2 ≤ mW) (hd : d.1 ≤ mH ∧ d.2 ≤ mW)
    (hrs : ∀ u ∈ rs, rectOK mH mW u) :
    ∀ u ∈ rectsFrom a b c d rs, rectOK mH mW u := by
  intro u hu
  rw [rectsFrom, rectsAdd4] at hu
  rcases mem_rectStep hu with hu | ⟨h4, rfl⟩
  · rw [rectsAdd3] at hu
    rcases mem_rectStep hu with hu | ⟨h3, rfl⟩
    · rw [rectsAdd2] at hu
      rcases mem_rectStep hu with hu | ⟨h2, rfl⟩
      · rw [rectsAdd1] at hu
        rcases mem_rectStep hu with hu | ⟨h1, rfl⟩
        · exact hrs u hu
        · rw [rectOK]; dsimp only; omega
      · rw [rectOK]; dsimp only; omega
    · rw [rectOK]; dsimp only; omega
  · rw [rectOK]; dsimp only; omega

theorem foldl_rect_inv {α : Type} (f : List Rect → α → List Rect) (l : List α)
    (init : List Rect) (Q : Rect → Prop)
    (hf : ∀ rs x, x ∈ l → (∀ r ∈ rs, Q r) → ∀ r ∈ f rs x, Q r)
    (h0 : ∀ r ∈ init, Q r) : ∀ r ∈ l.foldl f init, Q r := by
  induction l generalizing init with
  | nil => simpa using h0
  | cons a l ih =>
    rw [List.foldl_cons]
    exact ih (f init a) (fun rs x hx => hf rs x (List.mem_cons_of_mem _ hx))
      (hf init a (List.mem_cons_self a l) h0)

theorem rectsOf_OK {mH mW : Nat} {tls trs bls brs : List (Nat × Nat)}
    (htl : ∀ q ∈ tls, q.1 ≤ mH ∧ q.2 ≤ mW) (htr : ∀ q ∈ trs, q.1 ≤ mH ∧ q.2 ≤ mW)
    (hbl : ∀ q ∈ bls, q.1 ≤ mH ∧ q.2 ≤ mW) (hbr : ∀ q ∈ brs, q.1 ≤ mH ∧ q.2 ≤ mW) :
    ∀ r ∈ rectsOf tls trs bls brs, rectOK mH mW r := by
  rw [rectsOf]
  refine foldl_rect_inv _ _ _ _ ?_ (by simp)
  intro rs a hatl hrs
  refine foldl_rect_inv _ _ _ _ ?_ hrs
  intro rs b hbtr hrs
  refine foldl_rect_inv _ _ _ _ ?_ hrs
  intro rs c hcbl hrs
  refine foldl_rect_inv _ _ _ _ ?_ hrs
  intro rs d hdbr hrs
  exact rectsFrom_OK (htl a hatl) (htr b hbtr) (hbl c hcbl) (hbr d hdbr) hrs

/-! ### Sorting lemmas -/

theorem mem_insertScreen {s t : Screen} {l : List Screen} :
    t ∈ insertScreen s l ↔ t = s ∨ t ∈ l := by
  induction l with
  | nil => simp [insertScreen]
  | cons u us ih =>
    rw [insertScreen]
    split
    · simp
    · rw [List.mem_cons, ih, List.mem_cons]
      tauto

theorem mem_sortScreens {l : List Screen} {t : Screen} :
    t ∈ sortScreens l ↔ t ∈ l := by
  induction l with
  | nil => simp [sortScreens]
  | cons u us ih =>
    rw [sortScreens, mem_insertScreen, ih, List.mem_cons]

/-! ### Candidate screens are positive and in bounds -/

theorem candidatesOf_OK {st : MaskState} {s : Screen} (hs : s ∈ candidatesOf st) :
    1 ≤ s.width ∧ 1 ≤ s.height ∧ s.x + s.width ≤ st.mW ∧ s.y + s.height ≤ st.mH := by
  rw [candidatesOf, mem_sortScreens, List.mem_map] at hs
  obtain ⟨r, hr, rfl⟩ := hs
  have hb : ∀ P, ∀ q ∈ argwhere P (st.mH + 1) (st.mW + 1), q.1 ≤ st.mH ∧ q.2 ≤ st.mW := by
    intro P q hq
    obtain ⟨h1, h2, _⟩ := mem_argwhere.mp hq
    omega
  obtain ⟨h1, h2, h3, h4⟩ := rectsOf_OK (hb _) (hb _) (hb _) (hb _) r hr
  dsimp only [toScreen]
  exact ⟨by omega, by omega, by omega, by omega⟩

/-! ### Acceptance and consumption lemmas -/

theorem mem_rangeL {lo hi k : Nat} : k ∈ rangeL lo hi ↔ lo ≤ k ∧ k < hi := by
  rw [rangeL]
  simp only [List.mem_map, List.mem_range]
  constructor
  · rintro ⟨m, hm, rfl⟩
    omega
  · intro h
    exact ⟨k - lo, by omega, by omega⟩

theorem regionAll_cell {st : MaskState} {s : Screen} (h : regionAll st s = true)
    {i j : Nat} (hi : s.y ≤ i) (hi2 : i < min (s.y + s.height) (st.mH + 1))
    (hj : s.x ≤ j) (hj2 : j < min (s.x + s.width) (st.mW + 1)) :
    st.p (i + 1) (j + 1) ≠ 0 := by
  rw [regionAll, List.all_eq_true] at h
  have h1 := h i (mem_rangeL.mpr ⟨hi, hi2⟩)
  rw [List.all_eq_true] at h1
  have h2 := h1 j (mem_rangeL.mpr ⟨hj, hj2⟩)
  simpa using h2

theorem zeroRegion_p_le {st : MaskState} {s : Screen} {r c : Nat}
    (h : (zeroRegion st s).p r c ≠ 0) : st.p r c ≠ 0 := by
  rw [zeroRegion] at h
  dsimp only at h
  split at h
  · exact absurd rfl h
  · exact h

theorem zeroRegion_corner {st : MaskState} {s : Screen}
    (hw : 1 ≤ s.width) (hh : 1 ≤ s.height)
    (hx : s.x + s.width ≤ st.mW) (hy : s.y + s.height ≤ st.mH) :
    (zeroRegion st s).p (s.y + 1) (s.x + 1) = 0 := by
  rw [zeroRegion]
  dsimp only
  rw [if_pos]
  omega

/-! ### One round of the loop: soundness and strict decrease -/

theorem detectRound_sound {st : MaskState} {s : Screen} {st' : MaskState}
    (h : detectRound st = some (s, st')) :
    st' = zeroRegion st s ∧ s ∈ candidatesOf st ∧ regionAll st s = true := by
  rw [detectRound] at h
  cases hf : (candidatesOf st).find? (fun s => regionAll st s) with
  | none => rw [hf] at h; cases h
  | some u =>
    rw [hf] at h
    have h2 := Option.some.inj h
    have hu : u = s := congrArg Prod.fst h2
    subst hu
    have hz : zeroRegion st u = st' := congrArg Prod.snd h2
    exact ⟨hz.symm, List.mem_of_find?_eq_some hf, by simpa using List.find?_some hf⟩

theorem detectRound_decrease {st : MaskState} {s : Screen} {st' : MaskState}
    (h : detectRound st = some (s, st')) : filledArea st' < filledArea st := by
  obtain ⟨rfl, hmem, hall⟩ := detectRound_sound h
  obtain ⟨hw, hh, hxw, hyh⟩ := candidatesOf_OK hmem
  rw [filledArea, filledArea]
  show (((gridPoints (st.mH + 1) (st.mW + 1)).filter
      (fun q => (zeroRegion st s).p (q.1 + 1) (q.2 + 1) != 0)).length <
    ((gridPoints (st.mH + 1) (st.mW + 1)).filter
      (fun q => st.p (q.1 + 1) (q.2 + 1) != 0)).length)
  refine filter_length_lt ?_ (s.y, s.x) (mem_gridPoints.mpr ⟨by omega, by omega⟩) ?_ ?_
  · intro q _ hq
    rw [bne_iff_ne] at hq ⊢
    exact zeroRegion_p_le hq
  · rw [bne_iff_ne]
    exact regionAll_cell hall (Nat.le_refl _) (by omega) (Nat.le_refl _) (by omega)
  · rw [bne_eq_false_iff_eq]
    exact zeroRegion_corner hw hh hxw hyh

/-! ### The loop equation and fuel adequacy -/

theorem detectLoopFuel_congr : ∀ (f1 f2 : Nat) (st : MaskState),
    filledArea st < f1 → filledArea st < f2 →
    detectLoopFuel f1 st = detectLoopFuel f2 st := by
  intro f1
  induction f1 with
  | zero => intro f2 st h1 _; omega
  | succ n ih =>
    intro f2 st h1 h2
    cases f2 with
    | zero => omega
    | succ m =>
      simp only [detectLoopFuel]
      cases hr : detectRound st with
      | none => rfl
      | some p =>
        obtain ⟨s, st'⟩ := p
        dsimp only
        have hd := detectRound_decrease hr
        exact congrArg (List.cons s) (ih m st' (by omega) (by omega))

theorem detectLoop_eq (st : MaskState) :
    detectLoop st = match detectRound st with
      | none => []
      | some (s, st') => s :: detectLoop st' := by
  rw [detectLoop]
  simp only [detectLoopFuel]
  cases hr : detectRound st with
  | none => rfl
  | some p =>
    obtain ⟨s, st'⟩ := p
    dsimp only
    have hd := detectRound_decrease hr
    rw [detectLoop]
    exact congrArg (List.cons s)
      (detectLoopFuel_congr (filledArea st) (filledArea st' + 1) st' (by omega) (by omega))

/-! ### Corner classification on 0/1-valued masks -/

theorem topLeftB_iff {st : MaskState} (h01 : ∀ r c, st.p r c = 0 ∨ st.p r c = 1)
    (i j : Nat) :
    topLeftB st i j = true ↔ (maskA st i j = 1 ∧ maskB st i j = 0 ∧ maskC st i j = 0) :=
  cornerTest_val (h01 _ _) (h01 _ _) (h01 _ _)

theorem topRightB_iff {st : MaskState} (h01 : ∀ r c, st.p r c = 0 ∨ st.p r c = 1)
    (i j : Nat) :
    topRightB st i j = true ↔ (maskB st i j = 1 ∧ maskA st i j = 0 ∧ maskD st i j = 0) :=
  cornerTest_val (h01 _ _) (h01 _ _) (h01 _ _)

theorem bottomLeftB_iff {st : MaskState} (h01 : ∀ r c, st.p r c = 0 ∨ st.p r c = 1)
    (i j : Nat) :
    bottomLeftB st i j = true ↔ (maskC st i j = 1 ∧ maskD st i j = 0 ∧ maskA st i j = 0) :=
  cornerTest_val (h01 _ _) (h01 _ _) (h01 _ _)

theorem bottomRightB_iff {st : MaskState} (h01 : ∀ r c, st.p r c = 0 ∨ st.p r c = 1)
    (i j : Nat) :
    bottomRightB st i j = true ↔ (maskD st i j = 1 ∧ maskC st i j = 0 ∧ maskB st i j = 0) :=
  cornerTest_val (h01 _ _) (h01 _ _) (h01 _ _)

/-! ### The fully filled mask: corner sets, candidates, detection result -/

theorem fullMask_01 (mH mW : Nat) :
    ∀ r c, (fullMaskState mH mW).p r c = 0 ∨ (fullMaskState mH mW).p r c = 1 := by
  intro r c
  rw [fullMaskState]
  dsimp only
  split
  · exact Or.inr rfl
  · exact Or.inl rfl

theorem argwhere_topLeft_full {mH mW : Nat} (hH : 1 ≤ mH) (hW : 1 ≤ mW) :
    argwhere (topLeftB (fullMaskState mH mW)) (mH + 1) (mW + 1) = [(0, 0)] := by
  refine argwhere_eq_singleton (by omega) (by omega) ?_
  intro i j hi hj
  rw [topLeftB_iff (fullMask_01 mH mW), maskA, maskB, maskC]
  rw [fullMaskState]
  dsimp only
  split_ifs <;> omega

theorem argwhere_topRight_full {mH mW : Nat} (hH : 1 ≤ mH) (hW : 1 ≤ mW) :
    argwhere (topRightB (fullMaskState mH mW)) (mH + 1) (mW + 1) = [(0, mW)] := by
  refine argwhere_eq_singleton (by omega) (by omega) ?_
  intro i j hi hj
  rw [topRightB_iff (fullMask_01 mH mW), maskA, maskB, maskD]
  rw [fullMaskState]
  dsimp only
  split_ifs <;> omega

theorem argwhere_bottomLeft_full {mH mW : Nat} (hH : 1 ≤ mH) (hW : 1 ≤ mW) :
    argwhere (bottomLeftB (fullMaskState mH mW)) (mH + 1) (mW + 1) = [(mH, 0)] := by
  refine argwhere_eq_singleton (by omega) (by omega) ?_
  intro i j hi hj
  rw [bottomLeftB_iff (fullMask_01 mH mW), maskA, maskC, maskD]
  rw [fullMaskState]
  dsimp only
  split_ifs <;> omega

theorem argwhere_bottomRight_full {mH mW : Nat} (hH : 1 ≤ mH) (hW : 1 ≤ mW) :
    argwhere (bottomRightB (fullMaskState mH mW)) (mH + 1) (mW + 1) = [(mH, mW)] := by
  refine argwhere_eq_singleton (by omega) (by omega) ?_
  intro i j hi hj
  rw [bottomRightB_iff (fullMask_01 mH mW), maskB, maskC, maskD]
  rw [fullMaskState]
  dsimp only
  split_ifs <;> omega

theorem rectsOf_corners {mH mW : Nat} (hH : 1 ≤ mH) (hW : 1 ≤ mW) :
    rectsOf [(0, 0)] [(0, mW)] [(mH, 0)] [(mH, mW)] = [(0, 0, mW, mH)] := by
  have h0W : 0 < mW := hW
  have h0H : 0 < mH := hH
  rw [rectsOf]
  simp only [List.foldl_cons, List.foldl_nil, rectsFrom]
  simp [rectsAdd1, rectsAdd2, rectsAdd3, rectsAdd4, addRect, h0W, h0H]

theorem candidatesOf_full {mH mW : Nat} (hH : 1 ≤ mH) (hW : 1 ≤ mW) :
    candidatesOf (fullMaskState mH mW) = [⟨0, 0, mW, mH⟩] := by
  rw [candidatesOf]
  rw [show (fullMaskState mH mW).mH = mH from rfl,
      show (fullMaskState mH mW).mW = mW from rfl]
  rw [argwhere_topLeft_full hH hW, argwhere_topRight_full hH hW,
      argwhere_bottomLeft_full hH hW, argwhere_bottomRight_full hH hW,
      rectsOf_corners hH hW]
  simp [toScreen, sortScreens, insertScreen]

theorem regionAll_full (mH mW : Nat) :
    regionAll (fullMaskState mH mW) ⟨0, 0, mW, mH⟩ = true := by
  rw [regionAll]
  dsimp only
  rw [List.all_eq_true]
  intro i hi
  rw [List.all_eq_true]
  intro j hj
  rw [mem_rangeL] at hi hj
  have h1 : (fullMaskState mH mW).p (i + 1) (j + 1) = 1 := by
    rw [fullMaskState]
    dsimp only
    rw [if_pos]
    omega
  simp [h1]

theorem detectRound_full {mH mW : Nat} (hH : 1 ≤ mH) (hW : 1 ≤ mW) :
    detectRound (fullMaskState mH mW) =
      some (⟨0, 0, mW, mH⟩, zeroRegion (fullMaskState mH mW) ⟨0, 0, mW, mH⟩) := by
  rw [detectRound, candidatesOf_full hH hW,
      List.find?_cons_of_pos _ (by exact regionAll_full mH mW)]

theorem zeroRegion_full {mH mW : Nat} :
    ∀ r c, (zeroRegion (fullMaskState mH mW) ⟨0, 0, mW, mH⟩).p r c = 0 := by
  intro r c
  rw [zeroRegion]
  dsimp only [fullMaskState]
  split
  case isTrue _ => rfl
  case isFalse h =>
    rw [if_neg]
    omega

theorem topLeftB_zero {st : MaskState} (h0 : ∀ r c, st.p r c = 0) (i j : Nat) :
    topLeftB st i j = false := by
  rw [topLeftB, maskA, maskB, maskC, h0, h0, h0]
  decide

theorem topRightB_zero {st : MaskState} (h0 : ∀ r c, st.p r c = 0) (i j : Nat) :
    topRightB st i j = false := by
  rw [topRightB, maskA, maskB, maskD, h0, h0, h0]
  decide

theorem bottomLeftB_zero {st : MaskState} (h0 : ∀ r c, st.p r c = 0) (i j : Nat) :
    bottomLeftB st i j = false := by
  rw [bottomLeftB, maskA, maskC, maskD, h0, h0, h0]
  decide

theorem bottomRightB_zero {st : MaskState} (h0 : ∀ r c, st.p r c = 0) (i j : Nat) :
    bottomRightB st i j = false := by
  rw [bottomRightB, maskB, maskC, maskD, h0, h0, h0]
  decide

theorem detectRound_of_zero {st : MaskState} (h0 : ∀ r c, st.p r c = 0) :
    detectRound st = none := by
  rw [detectRound, candidatesOf,
      argwhere_eq_nil (fun i j _ _ => topLeftB_zero h0 i j),
      argwhere_eq_nil (fun i j _ _ => topRightB_zero h0 i j),
      argwhere_eq_nil (fun i j _ _ => bottomLeftB_zero h0 i j),
      argwhere_eq_nil (fun i j _ _ => bottomRightB_zero h0 i j)]
  rfl

theorem detectLoop_full {mH mW : Nat} (hH : 1 ≤ mH) (hW : 1 ≤ mW) :
    detectLoop (fullMaskState mH mW) = [⟨0, 0, mW, mH⟩] := by
  rw [detectLoop_eq, detectRound_full hH hW]
  dsimp only
  rw [detectLoop_eq, detectRound_of_zero zeroRegion_full]

/-! ### From the video buffer to the working mask -/

theorem initMask_const255 {mH mW : Nat} (alpha : Nat → Nat → Nat)
    (ha : ∀ i j, i < mH → j < mW → alpha i j = 255) :
    initMask mH mW alpha = fullMaskState mH mW := by
  rw [initMask, fullMaskState]
  congr 1
  funext r c
  split
  case isTrue h =>
    rw [ha (r - 1) (c - 1) (by omega) (by omega)]
    decide
  case isFalse _ => rfl

theorem initMask_zero {mH mW : Nat} (alpha : Nat → Nat → Nat)
    (ha : ∀ i j, i < mH → j < mW → alpha i j < 255) :
    ∀ r c, (initMask mH mW alpha).p r c = 0 := by
  intro r c
  rw [initMask]
  dsimp only
  split
  case isTrue h =>
    rw [binarize, Nat.div_eq_of_lt (ha (r - 1) (c - 1) (by omega) (by omega))]
    rfl
  case isFalse _ => rfl

theorem detect_screens_some {v : Video} {d : Buffer} (hd : v.data = some d) :
    v.detect_screens =
      detectLoop (initMask v.height v.width (fun i j => d i j (v.mode.index 'a'))) := by
  rw [Video.detect_screens, hd]

theorem is_complete_none {v : Video} (hd : v.data = none) : v.is_complete = false := by
  rw [Video.is_complete, hd]

theorem is_complete_iff {v : Video} {d : Buffer} (hd : v.data = some d) :
    v.is_complete = true ↔
      ∀ i j, i < v.height → j < v.width → d i j (v.mode.index 'a') ≠ 0 := by
  rw [Video.is_complete, hd]
  simp only [List.all_eq_true, List.mem_range, bne_iff_ne]
  constructor
  · intro h i j hi hj
    exact h i hi j hj
  · intro h i hi j hj
    exact h i j hi hj

/-! ### Concrete score evaluations -/

theorem limit_denominator_small {q : ℚ} {md : Nat} (h : q.den ≤ md) :
    limit_denominator q md = q := by
  rw [limit_denominator, if_pos h]

theorem score_100 : (Screen.mk 0 0 100 100).score = 5000 := by
  rw [Screen.score]
  have h1 : ((100 : Nat) : ℚ) / ((100 : Nat) : ℚ) = 1 := by norm_num
  rw [h1, limit_denominator_small (by norm_num)]
  rw [if_neg]
  · norm_num
  · rw [screen_ratios]
    simp only [List.mem_cons, List.not_mem_nil, or_false, or_self]
    norm_num

theorem score_1920 : (Screen.mk 0 0 1920 1080).score = 2073600 := by
  rw [Screen.score]
  have h1 : ((1920 : Nat) : ℚ) / ((1080 : Nat) : ℚ) = 16 / 9 := by norm_num
  have h2 : ((1080 : Nat) : ℚ) / ((1920 : Nat) : ℚ) = 9 / 16 := by norm_num
  rw [h1, h2, limit_denominator_small (by norm_num), limit_denominator_small (by norm_num)]
  rw [if_pos]
  · norm_num
  · left
    rw [screen_ratios]
    simp only [List.mem_cons, List.not_mem_nil, or_false]
    norm_num

/-! ### Claim C3 -/

/-- C3: on a fully filled height×width mask (all alpha bytes 255),
detect_screens returns exactly the single screen (0, 0, width, height); the
score of every screen agrees with the formula stated by the claim
(`scoreSpec`); concretely the score of a 100×100 screen is 5000 and of a
1920×1080 screen is 2073600. -/
theorem claim_C3 (v : Video) (d : Buffer) (hd : v.data = some d)
    (hH : 1 ≤ v.height) (hW : 1 ≤ v.width)
    (ha : ∀ i j, i < v.height → j < v.width → d i j (v.mode.index 'a') = 255) :
    v.detect_screens = [⟨0, 0, v.width, v.height⟩] ∧
    (∀ s : Screen, s.score = scoreSpec s.width s.height) ∧
    (Screen.mk 0 0 100 100).score = 5000 ∧
    (Screen.mk 0 0 1920 1080).score = 2073600 := by
  refine ⟨?_, ?_, score_100, score_1920⟩
  · rw [detect_screens_some hd, initMask_const255 _ ha]
    exact detectLoop_full hH hW
  · intro s
    rw [Screen.score, scoreSpec]
    split
    case isTrue h => rfl
    case isFalse h => ring

/-- C3 witness: the fully filled 2×2 rgba video yields the single screen
(0, 0, 2, 2). -/
theorem claim_C3_witness : vFull2.detect_screens = [Screen.mk 0 0 2 2] :=
  (claim_C3 vFull2 (fun _ _ _ => 255) rfl (by decide) (by decide)
    (fun _ _ _ _ => rfl)).1

/-! ### Claim C1 -/

theorem twoRegion_alpha255 : ∀ i j, i < 600 → j < 1600 → twoRegionAlpha i j = 255 := by
  intro i j hi hj
  rw [twoRegionAlpha]
  split
  case isTrue _ => rfl
  case isFalse h => omega

theorem twoRegion_detect : twoRegionVideo.detect_screens = [⟨0, 0, 1600, 600⟩] := by
  show detectLoop (initMask 600 1600 twoRegionAlpha) = [⟨0, 0, 1600, 600⟩]
  rw [initMask_const255 twoRegionAlpha twoRegion_alpha255]
  exact detectLoop_full (by norm_num) (by norm_num)

/-- C1 counterexample: on the mask in which exactly the regions (0,0,800,600)
and (800,0,800,600) are filled, detect_screens does not return the two
screens: the two regions are edge-adjacent, their union is the fully filled
1600×600 rectangle, and the single merged screen (0,0,1600,600) is returned;
neither individual screen is in the result. -/
theorem claim_C1_counterexample :
    twoRegionVideo.detect_screens = [⟨0, 0, 1600, 600⟩] ∧
    Screen.mk 0 0 800 600 ∉ twoRegionVideo.detect_screens ∧
    Screen.mk 800 0 800 600 ∉ twoRegionVideo.detect_screens := by
  refine ⟨twoRegion_detect, ?_, ?_⟩ <;> rw [twoRegion_detect] <;> decide

/-- C1 amended: on that mask detect_screens returns the single screen
(0,0,1600,600), which covers exactly the union of the two regions; the two
regions are disjoint (no pixel, in particular no boundary column, is counted
twice). -/
theorem claim_C1_amended :
    twoRegionVideo.detect_screens = [⟨0, 0, 1600, 600⟩] ∧
    (∀ i j : Nat, (i < 600 ∧ j < 1600) ↔
      ((i < 600 ∧ j < 800) ∨ (i < 600 ∧ 800 ≤ j ∧ j < 1600))) ∧
    (∀ i j : Nat, ¬ ((i < 600 ∧ j < 800) ∧ (i < 600 ∧ 800 ≤ j ∧ j < 1600))) := by
  refine ⟨twoRegion_detect, ?_, ?_⟩ <;> intro i j <;> omega

/-! ### Claim C4 -/

/-- C4: whenever a detection round accepts a candidate, the candidate has
width ≥ 1 and height ≥ 1, its region is entirely filled in the working mask
(`regionAll`), the new working mask is the old one with that region zeroed,
the filled area strictly decreases, and the loop satisfies its one-step
equation with `filledArea st + 1` rounds of fuel sufficient — which is the
termination argument; the input mask is never mutated (the embedding is a
pure function, matching the source where `np.pad` copies the alpha data). -/
theorem claim_C4 (st : MaskState) (s : Screen) (st' : MaskState)
    (h : detectRound st = some (s, st')) :
    1 ≤ s.width ∧ 1 ≤ s.height ∧ regionAll st s = true ∧ st' = zeroRegion st s ∧
    filledArea st' < filledArea st ∧
    detectLoop st = s :: detectLoop st' ∧
    detectLoop st = detectLoopFuel (filledArea st + 1) st := by
  obtain ⟨hz, hmem, hall⟩ := detectRound_sound h
  obtain ⟨h1, h2, _, _⟩ := candidatesOf_OK hmem
  refine ⟨h1, h2, hall, hz, detectRound_decrease h, ?_, rfl⟩
  rw [detectLoop_eq, h]

/-- C4 witness at the fully filled 2×2 mask: the round accepts (0,0,2,2). -/
theorem claim_C4_witness :
    1 ≤ (Screen.mk 0 0 2 2).width ∧ 1 ≤ (Screen.mk 0 0 2 2).height ∧
    regionAll fullSt2 (Screen.mk 0 0 2 2) = true ∧
    zeroRegion fullSt2 (Screen.mk 0 0 2 2) = zeroRegion fullSt2 (Screen.mk 0 0 2 2) ∧
    filledArea (zeroRegion fullSt2 (Screen.mk 0 0 2 2)) < filledArea fullSt2 ∧
    detectLoop fullSt2 =
      Screen.mk 0 0 2 2 :: detectLoop (zeroRegion fullSt2 (Screen.mk 0 0 2 2)) ∧
    detectLoop fullSt2 = detectLoopFuel (filledArea fullSt2 + 1) fullSt2 :=
  claim_C4 fullSt2 (Screen.mk 0 0 2 2) (zeroRegion fullSt2 (Screen.mk 0 0 2 2)) rfl

/-! ### Claim C6 -/

/-- C6: on a 0/1-valued padded mask, the code's corner test (int8 bitwise AND
of the two orthogonal first differences compared equal to -1) holds exactly
when both differences (as exact integers) equal -1, for each of the four
corner types. -/
theorem claim_C6 (st : MaskState) (h01 : ∀ r c, st.p r c = 0 ∨ st.p r c = 1)
    (i j : Nat) :
    (topLeftB st i j = true ↔
      (maskB st i j - maskA st i j = -1 ∧ maskC st i j - maskA st i j = -1)) ∧
    (topRightB st i j = true ↔
      (maskA st i j - maskB st i j = -1 ∧ maskD st i j - maskB st i j = -1)) ∧
    (bottomLeftB st i j = true ↔
      (maskD st i j - maskC st i j = -1 ∧ maskA st i j - maskC st i j = -1)) ∧
    (bottomRightB st i j = true ↔
      (maskC st i j - maskD st i j = -1 ∧ maskB st i j - maskD st i j = -1)) :=
  ⟨cornerTest_diff (h01 _ _) (h01 _ _) (h01 _ _),
   cornerTest_diff (h01 _ _) (h01 _ _) (h01 _ _),
   cornerTest_diff (h01 _ _) (h01 _ _) (h01 _ _),
   cornerTest_diff (h01 _ _) (h01 _ _) (h01 _ _)⟩

/-- C6 witness at the fully filled 2×2 mask and cell (0,0). -/
theorem claim_C6_witness :
    (∀ r c, fullSt2.p r c = 0 ∨ fullSt2.p r c = 1) ∧
    (topLeftB fullSt2 0 0 = true ↔
      (maskB fullSt2 0 0 - maskA fullSt2 0 0 = -1 ∧
       maskC fullSt2 0 0 - maskA fullSt2 0 0 = -1)) :=
  ⟨fullMask_01 2 2, (claim_C6 fullSt2 (fullMask_01 2 2) 0 0).1⟩

/-! ### Claim C10 -/

/-- C10: detect_screens binarizes the alpha channel by integer division by
255, so a byte counts as filled iff it is exactly 255, and any byte below 255
counts as unfilled; yet a buffer whose alpha bytes all lie in 1..254 is
reported complete by is_complete while detect_screens finds no screen in it. -/
theorem claim_C10 :
    (∀ a : Nat, a < 256 → (binarize a = 1 ↔ a = 255)) ∧
    (∀ a : Nat, binarize a = 0 ↔ a < 255) ∧
    (∀ (v : Video) (d : Buffer) (a : Nat), v.data = some d → 1 ≤ a → a ≤ 254 →
      (∀ i j c, d i j c = a) → v.is_complete = true ∧ v.detect_screens = []) := by
  refine ⟨?_, ?_, ?_⟩
  · intro a ha
    constructor
    · intro h
      by_contra hne
      rw [binarize, Nat.div_eq_of_lt (by omega)] at h
      omega
    · rintro rfl
      rfl
  · intro a
    rw [binarize]
    exact Nat.div_eq_zero_iff (by norm_num)
  · intro v d a hd h1 h2 hconst
    constructor
    · rw [is_complete_iff hd]
      intro i j _ _
      rw [hconst]
      omega
    · rw [detect_screens_some hd, detectLoop_eq,
        detectRound_of_zero (initMask_zero _ (fun i j _ _ => by rw [hconst]; omega))]

/-- C10 witness: the all-128 1×1 buffer is complete but yields no screens. -/
theorem claim_C10_witness : v128.is_complete = true ∧ v128.detect_screens = [] :=
  claim_C10.2.2 v128 (fun _ _ _ => 128) 128 rfl (by norm_num) (by norm_num)
    (fun _ _ _ => rfl)

/-! ### Claim C2 -/

/-- C2 counterexample: a buffer whose alpha bytes are all 128 is reported
complete by is_complete although no alpha byte equals 255 — numpy .all()
tests non-zero, not equality with 255. -/
theorem claim_C2_counterexample :
    v128.is_complete = true ∧
    ∃ d, v128.data = some d ∧
      ¬ (∀ i j, i < v128.height → j < v128.width → d i j (v128.mode.index 'a') = 255) := by
  refine ⟨by decide, ⟨fun _ _ _ => 128, rfl, ?_⟩⟩
  intro h
  exact absurd (h 0 0 (by decide) (by decide)) (by decide)

/-- C2 amended: is_complete returns true iff a buffer has been allocated and
every alpha byte of the buffer is non-zero. -/
theorem claim_C2_amended (v : Video) :
    v.is_complete = true ↔
      ∃ d, v.data = some d ∧
        ∀ i j, i < v.height → j < v.width → d i j (v.mode.index 'a') ≠ 0 := by
  cases hd : v.data with
  | none =>
    rw [is_complete_none hd]
    simp [hd]
  | some d =>
    rw [is_complete_iff hd]
    constructor
    · intro h
      exact ⟨d, rfl, h⟩
    · rintro ⟨d', hd', h⟩
      have h2 : d = d' := Option.some.inj hd'
      subst h2
      exact h

/-- C2 amended witness: the all-255 2×2 buffer is complete. -/
theorem claim_C2_witness : vFull2.is_complete = true := by
  rw [claim_C2_amended]
  exact ⟨fun _ _ _ => 255, rfl, fun i j _ _ => by norm_num⟩

/-! ### Claim C7 -/

theorem as_rgba_some {v : Video} {d : Buffer} (hd : v.data = some d) :
    v.as_rgba = (if v.mode = Mode.rgba then ⟨v.height, v.width, d⟩
      else if v.mode = Mode.abgr then ⟨v.height, v.width, fun i j k => d i j (3 - k)⟩
      else ⟨v.height, v.width, fun i j k =>
        if k = 0 then d i j (v.mode.index 'r')
        else if k = 1 then d i j (v.mode.index 'g')
        else if k = 2 then d i j (v.mode.index 'b')
        else if k = 3 then d i j (v.mode.index 'a')
        else 0⟩ : NDArray) := by
  rw [Video.as_rgba, hd]

/-- C7: for an allocated buffer, channel k of the as_rgba output equals
channel mode.index of the k-th R,G,B,A channel name of the buffer, for every
mode; gathering the output through the inverse permutation recovers the
buffer (the permutation composed with its inverse is the identity); for rgba
the buffer is returned as-is and for abgr the channels are reversed; with no
buffer the result is the all-zero array of shape height × width × 4. -/
theorem claim_C7 (v : Video) :
    (∀ d, v.data = some d → ∀ i j k, k < 4 →
      (v.as_rgba).val i j k = d i j (v.mode.index (Mode.rgba.chars.getD k 'z')) ∧
      (v.as_rgba).val i j (v.mode.invPerm k) = d i j k) ∧
    (∀ d, v.data = some d → v.mode = Mode.rgba → v.as_rgba = ⟨v.height, v.width, d⟩) ∧
    (∀ d, v.data = some d → v.mode = Mode.abgr →
      ∀ i j k, k < 4 → (v.as_rgba).val i j k = d i j (3 - k)) ∧
    (v.data = none → v.as_rgba = ⟨v.height, v.width, fun _ _ _ => 0⟩) := by
  refine ⟨?_, ?_, ?_, ?_⟩
  · intro d hd i j k hk
    rw [as_rgba_some hd]
    cases hm : v.mode <;>
      exact ⟨by interval_cases k <;> rfl, by interval_cases k <;> rfl⟩
  · intro d hd hm
    rw [as_rgba_some hd, hm, if_pos rfl]
  · intro d hd hm i j k hk
    rw [as_rgba_some hd, hm, if_neg (by decide), if_pos rfl]
  · intro hd
    rw [Video.as_rgba, hd]

/-- C7 witness at the concrete bgra video: output channel 0 (red) reads
buffer channel 2, and the inverse gather recovers buffer channel 0. -/
theorem claim_C7_witness :
    (vBgra2.as_rgba).val 0 1 0 = 16 * 0 + 4 * 1 + 2 ∧
    (vBgra2.as_rgba).val 0 1 (vBgra2.mode.invPerm 0) = 16 * 0 + 4 * 1 + 0 :=
  (claim_C7 vBgra2).1 (fun i j c => 16 * i + 4 * j + c) rfl 0 1 0 (by norm_num)

/-! ### Stream parsing lemmas -/

theorem readexactly_ok {n : Nat} {s : List Nat} (h : n ≤ s.length) :
    readexactly n s = .ok (s.take n, s.drop n) := by
  rw [readexactly, if_pos h]

theorem readexactly_err {n : Nat} {s : List Nat} (h : s.length < n) :
    readexactly n s = .error .incomplete := by
  rw [readexactly, if_neg (by omega)]

theorem readexactly_cases (n : Nat) (s : List Nat) :
    readexactly n s = .ok (s.take n, s.drop n) ∨ readexactly n s = .error .incomplete := by
  rw [readexactly]
  split
  · exact Or.inl rfl
  · exact Or.inr rfl

theorem read_int_ok {n : Nat} {s : List Nat} (h : n ≤ s.length) :
    read_int n s = .ok (beInt (s.take n), s.drop n) := by
  rw [read_int, readexactly_ok h]
  rfl

theorem read_int_err {n : Nat} {s : List Nat} (h : s.length < n) :
    read_int n s = .error .incomplete := by
  rw [read_int, readexactly_err h]
  rfl

theorem read_int_cases (n : Nat) (s : List Nat) :
    read_int n s = .ok (beInt (s.take n), s.drop n) ∨ read_int n s = .error .incomplete := by
  rcases readexactly_cases n s with h | h <;> rw [read_int, h]
  · exact Or.inl rfl
  · exact Or.inr rfl

/-! ### Video.read: unfolding, truncation, error classification -/

theorem read_unfold {v : Video} {s : List Nat} (h : 12 ≤ s.length) :
    Video.read v s =
      if headerEncoding s = 0 then
        match readexactly ((rectHeader s).2.2.2 * (rectHeader s).2.2.1 * 4) (s.drop 12) with
        | .error e => (some e, v, [])
        | .ok (data, s6) =>
          v.writeRect (rectHeader s).1 (rectHeader s).2.1 (rectHeader s).2.2.1
            (rectHeader s).2.2.2 data s6
      else if headerEncoding s = 6 then
        match read_int 4 (s.drop 12) with
        | .error e => (some e, v, [])
        | .ok (length, s6) =>
          match readexactly length s6 with
          | .error e => (some e, v, [])
          | .ok (zdata, s7) =>
            v.writeRect (rectHeader s).1 (rectHeader s).2.1 (rectHeader s).2.2.1
              (rectHeader s).2.2.2 (v.decompress zdata) s7
      else (some (.badEncoding (headerEncoding s)), v, s.drop 12) := by
  have e1 : read_int 2 s = .ok (beInt (s.take 2), s.drop 2) := read_int_ok (by omega)
  have e2 : read_int 2 (s.drop 2) = .ok (beInt ((s.drop 2).take 2), s.drop 4) := by
    rw [read_int_ok (by simp; omega), List.drop_drop]
  have e3 : read_int 2 (s.drop 4) = .ok (beInt ((s.drop 4).take 2), s.drop 6) := by
    rw [read_int_ok (by simp; omega), List.drop_drop]
  have e4 : read_int 2 (s.drop 6) = .ok (beInt ((s.drop 6).take 2), s.drop 8) := by
    rw [read_int_ok (by simp; omega), List.drop_drop]
  have e5 : read_int 4 (s.drop 8) = .ok (headerEncoding s, s.drop 12) := by
    rw [read_int_ok (by simp; omega), List.drop_drop]
    rfl
  simp only [Video.read, e1, e2, e3, e4, e5]
  rfl

theorem read_short {v : Video} {s : List Nat} (h : s.length < 12) :
    Video.read v s = (some .incomplete, v, []) := by
  rcases Nat.lt_or_ge s.length 2 with hl | hl
  · rw [Video.read, read_int_err hl]
  rcases Nat.lt_or_ge s.length 4 with hl2 | hl2
  · rw [Video.read, read_int_ok hl]
    dsimp only
    rw [read_int_err (by simp; omega)]
  rcases Nat.lt_or_ge s.length 6 with hl3 | hl3
  · rw [Video.read, read_int_ok hl]
    dsimp only
    rw [read_int_ok (by simp; omega)]
    dsimp only
    rw [read_int_err (by simp; omega)]
  rcases Nat.lt_or_ge s.length 8 with hl4 | hl4
  · rw [Video.read, read_int_ok hl]
    dsimp only
    rw [read_int_ok (by simp; omega)]
    dsimp only
    rw [read_int_ok (by simp; omega)]
    dsimp only
    rw [read_int_err (by simp; omega)]
  · rw [Video.read, read_int_ok hl]
    dsimp only
    rw [read_int_ok (by simp; omega)]
    dsimp only
    rw [read_int_ok (by simp; omega)]
    dsimp only
    rw [read_int_ok (by simp; omega)]
    dsimp only
    rw [read_int_err (by simp; omega)]

theorem writeRect_cases (v : Video) (x y width height : Nat) (data s : List Nat) :
    (v.writeRect x y width height data s).1 = none ∨
    (v.writeRect x y width height data s).1 = some .shapeMismatch := by
  rw [Video.writeRect]
  cases hv : v.data <;> dsimp only <;> split_ifs <;> simp

theorem read_err_classify (v : Video) (s : List Nat) :
    (Video.read v s).1 = none ∨ (Video.read v s).1 = some .incomplete ∨
    (Video.read v s).1 = some .shapeMismatch ∨
    (12 ≤ s.length ∧ headerEncoding s ≠ 0 ∧ headerEncoding s ≠ 6 ∧
      Video.read v s = (some (.badEncoding (headerEncoding s)), v, s.drop 12)) := by
  rcases Nat.lt_or_ge s.length 12 with hl | hl
  · rw [read_short hl]
    right
    left
    rfl
  rw [read_unfold hl]
  by_cases h0 : headerEncoding s = 0
  · rw [if_pos h0]
    rcases readexactly_cases ((rectHeader s).2.2.2 * (rectHeader s).2.2.1 * 4) (s.drop 12)
      with h | h <;> rw [h] <;> dsimp only
    · rcases writeRect_cases v (rectHeader s).1 (rectHeader s).2.1 (rectHeader s).2.2.1
        (rectHeader s).2.2.2 ((s.drop 12).take ((rectHeader s).2.2.2 * (rectHeader s).2.2.1 * 4))
        ((s.drop 12).drop ((rectHeader s).2.2.2 * (rectHeader s).2.2.1 * 4)) with hw | hw
      · exact Or.inl hw
      · exact Or.inr (Or.inr (Or.inl hw))
    · right
      left
      rfl
  rw [if_neg h0]
  by_cases h6 : headerEncoding s = 6
  · rw [if_pos h6]
    rcases read_int_cases 4 (s.drop 12) with h | h <;> rw [h] <;> dsimp only
    · rcases readexactly_cases (beInt ((s.drop 12).take 4)) ((s.drop 12).drop 4)
        with h2 | h2 <;> rw [h2] <;> dsimp only
      · rcases writeRect_cases v (rectHeader s).1 (rectHeader s).2.1 (rectHeader s).2.2.1
          (rectHeader s).2.2.2
          (v.decompress (((s.drop 12).drop 4).take (beInt ((s.drop 12).take 4))))
          (((s.drop 12).drop 4).drop (beInt ((s.drop 12).take 4))) with hw | hw
        · exact Or.inl hw
        · exact Or.inr (Or.inr (Or.inl hw))
      · right
        left
        rfl
    · right
      left
      rfl
  · rw [if_neg h6]
    right
    right
    right
    exact ⟨hl, h0, h6, rfl⟩

theorem read_badEncoding {v : Video} {s : List Nat} (h12 : 12 ≤ s.length)
    (h0 : headerEncoding s ≠ 0) (h6 : headerEncoding s ≠ 6) :
    Video.read v s = (some (.badEncoding (headerEncoding s)), v, s.drop 12) := by
  rw [read_unfold h12, if_neg h0, if_neg h6]

/-! ### Claim C8 -/

/-- C8 counterexample: a Raw rectangle (encoding 0) whose 12-byte header is
present but whose body is truncated makes Video.read raise
IncompleteReadError, so read can raise even though the encoding is 0. -/
theorem claim_C8_counterexample :
    (Video.read vNone sTruncRaw).1 = some VncError.incomplete ∧
    headerEncoding sTruncRaw = 0 :=
  ⟨rfl, rfl⟩

/-- C8 amended: Video.read raises UnsupportedEncodingError (ValueError on the
encoding) exactly when the 12-byte header is readable and its encoding code
is neither 0 nor 6; in that case it raises after consuming exactly the 12
header bytes, with the video (in particular its pixel buffer, which is not
even allocated) unchanged. With encoding 0 or 6 read never raises that
error, though it can raise IncompleteReadError or a numpy size error on a
truncated or ill-sized body. -/
theorem claim_C8_amended (v : Video) (s : List Nat) :
    (isBadEncodingErr (Video.read v s).1 = true ↔
      (12 ≤ s.length ∧ headerEncoding s ≠ 0 ∧ headerEncoding s ≠ 6)) ∧
    (12 ≤ s.length → headerEncoding s ≠ 0 → headerEncoding s ≠ 6 →
      Video.read v s = (some (.badEncoding (headerEncoding s)), v, s.drop 12)) := by
  constructor
  · constructor
    · intro h
      rcases read_err_classify v s with hc | hc | hc | ⟨h1, h2, h3, _⟩
      · rw [hc] at h
        simp [isBadEncodingErr] at h
      · rw [hc] at h
        simp [isBadEncodingErr] at h
      · rw [hc] at h
        simp [isBadEncodingErr] at h
      · exact ⟨h1, h2, h3⟩
    · rintro ⟨h1, h2, h3⟩
      rw [read_badEncoding h1 h2 h3]
      rfl
  · intro h1 h2 h3
    exact read_badEncoding h1 h2 h3

/-- C8 witness: a header with unsupported encoding 5 yields exactly the
unsupported-encoding error with 12 bytes consumed and the video unchanged. -/
theorem claim_C8_witness :
    Video.read vNone sBadEnc = (some (VncError.badEncoding 5), vNone, []) :=
  (claim_C8_amended vNone sBadEnc).2 (by decide) (by decide) (by decide)

/-! ### Claim C9 -/

theorem read_no_badUpdate {v : Video} {s : List Nat} {e : VncError} {t : Nat}
    (h : (Video.read v s).1 = some e) : e ≠ VncError.badUpdateType t := by
  rcases read_err_classify v s with hc | hc | hc | ⟨_, _, _, hc⟩
  · rw [hc] at h
    cases h
  · rw [hc] at h
    cases Option.some.inj h
    simp
  · rw [hc] at h
    cases Option.some.inj h
    simp
  · rw [hc] at h
    dsimp only at h
    cases Option.some.inj h
    simp

theorem videoReadLoop_no_badUpdate {n : Nat} :
    ∀ {v : Video} {s : List Nat} {e : VncError} {t : Nat},
    (videoReadLoop v n s).1 = some e → e ≠ VncError.badUpdateType t := by
  induction n with
  | zero =>
    intro v s e t h
    rw [videoReadLoop] at h
    cases h
  | succ m ih =>
    intro v s e t h
    rw [videoReadLoop] at h
    rcases hr : Video.read v s with ⟨eo, v1, s1⟩
    rw [hr] at h
    cases eo with
    | some e2 =>
      dsimp only at h
      cases Option.some.inj h
      exact read_no_badUpdate (by rw [hr])
    | none =>
      dsimp only at h
      exact ih h

theorem clientRead_badType {c : Client} {s : List Nat} (h1 : 1 ≤ s.length)
    (ht : beInt (s.take 1) ≠ 0) :
    Client.read c s = (.error (.badUpdateType (beInt (s.take 1))), c, s.drop 1) := by
  rw [Client.read, read_int_ok h1]
  dsimp only
  rw [if_neg ht]

/-- C9 counterexample: an update message whose type byte is 0 but whose body
is truncated makes Client.read raise IncompleteReadError, so Client.read can
raise even though the update-type code is 0. -/
theorem claim_C9_counterexample :
    (Client.read cFresh sType0Trunc).1 = .error VncError.incomplete ∧
    beInt (sType0Trunc.take 1) = 0 :=
  ⟨rfl, rfl⟩

/-- C9 amended: Client.read raises InvalidUpdateTypeError (the enum
conversion ValueError) exactly when the 1-byte type code it reads is not 0,
and in that case it consumes exactly that one byte (not the padding byte)
and leaves the client unchanged; when the code is 0 it reads one padding
byte and the 2-byte rectangle count n, performs exactly n Video.read calls,
and, when they all succeed, returns the Video update type (other failures,
such as a truncated stream, surface as their own errors, never as
InvalidUpdateTypeError). -/
theorem claim_C9_amended (c : Client) (s : List Nat) :
    (isBadUpdateErr (Client.read c s).1 = true ↔
      (1 ≤ s.length ∧ beInt (s.take 1) ≠ 0)) ∧
    (1 ≤ s.length → beInt (s.take 1) ≠ 0 →
      Client.read c s = (.error (.badUpdateType (beInt (s.take 1))), c, s.drop 1)) ∧
    (∀ n v' s', 4 ≤ s.length → beInt (s.take 1) = 0 →
      beInt ((s.drop 2).take 2) = n →
      videoReadLoop c.video n (s.drop 4) = (none, v', s') →
      Client.read c s = (.ok UpdateType.VIDEO, ⟨v'⟩, s')) := by
  refine ⟨⟨?_, ?_⟩, fun h1 ht => clientRead_badType h1 ht, ?_⟩
  · intro h
    rcases Nat.lt_or_ge s.length 1 with hl | hl
    · rw [Client.read, read_int_err hl] at h
      simp [isBadUpdateErr] at h
    by_cases ht : beInt (s.take 1) = 0
    · exfalso
      rw [Client.read, read_int_ok hl] at h
      dsimp only at h
      rw [if_pos ht] at h
      rcases Nat.lt_or_ge s.length 2 with hl2 | hl2
      · rw [readexactly_err (by simp; omega)] at h
        simp [isBadUpdateErr] at h
      rw [readexactly_ok (by simp; omega)] at h
      dsimp only at h
      rcases Nat.lt_or_ge s.length 4 with hl4 | hl4
      · rw [read_int_err (by simp; omega)] at h
        simp [isBadUpdateErr] at h
      rw [read_int_ok (by simp; omega)] at h
      dsimp only at h
      rcases hlp : videoReadLoop c.video (beInt (((s.drop 1).drop 1).take 2))
          (((s.drop 1).drop 1).drop 2) with ⟨eo, v2, s2⟩
      rw [hlp] at h
      cases eo with
      | some e2 =>
        dsimp only [isBadUpdateErr] at h
        cases e2 <;> simp at h
        exact absurd rfl (videoReadLoop_no_badUpdate (by rw [hlp]))
      | none =>
        simp [isBadUpdateErr] at h
    · exact ⟨hl, ht⟩
  · rintro ⟨h1, ht⟩
    rw [clientRead_badType h1 ht]
    rfl
  · intro n v' s' h4 ht hn hloop
    rw [Client.read, read_int_ok (by omega)]
    dsimp only
    rw [if_pos ht]
    rw [readexactly_ok (by simp; omega)]
    dsimp only
    have e3 : read_int 2 ((s.drop 1).drop 1) = .ok (beInt ((s.drop 2).take 2), s.drop 4) := by
      rw [read_int_ok (by simp; omega), List.drop_drop, List.drop_drop]
    rw [e3]
    dsimp only
    rw [hn, hloop]

/-- C9 witness: a well-formed one-rectangle framebuffer update message is
consumed whole and Client.read returns the Video update type. -/
theorem claim_C9_witness :
    ∃ v' s', videoReadLoop cFresh.video 1 (([0, 0, 0, 1] ++ sOneRect).drop 4) = (none, v', s') ∧
      Client.read cFresh ([0, 0, 0, 1] ++ sOneRect) = (.ok UpdateType.VIDEO, ⟨v'⟩, s') := by
  refine ⟨_, _, rfl, ?_⟩
  exact (claim_C9_amended cFresh ([0, 0, 0, 1] ++ sOneRect)).2.2 1 _ _
    (by decide) (by decide) (by decide) rfl

/-! ### Claim C5 -/

theorem writeRect_success {v : Video} {x y width height : Nat} {data s : List Nat}
    {v' : Video} {s' : List Nat}
    (h : v.writeRect x y width height data s = (none, v', s')) :
    v'.height = v.height ∧ v'.width = v.width ∧ v'.mode = v.mode ∧ s' = s ∧
    y + height ≤ v.height ∧ x + width ≤ v.width ∧
    ∃ d0, v'.data = some (applyRect d0 (v.mode.index 'a') x y width height data) ∧
      (v.data = some d0 ∨ (v.data = none ∧ d0 = fun _ _ _ => 0)) := by
  rw [Video.writeRect] at h
  cases hv : v.data with
  | none =>
    rw [hv] at h
    dsimp only at h
    split_ifs at h with hlen hfit
    · simp only [Prod.mk.injEq] at h
      obtain ⟨-, hV, hs⟩ := h
      subst hV
      exact ⟨rfl, rfl, rfl, hs.symm, hfit.1, hfit.2, _, rfl, Or.inr ⟨rfl, rfl⟩⟩
    · simp only [Prod.mk.injEq] at h
      exact absurd h.1 (by simp)
    · simp only [Prod.mk.injEq] at h
      exact absurd h.1 (by simp)
  | some d =>
    rw [hv] at h
    dsimp only at h
    split_ifs at h with hlen hfit
    · simp only [Prod.mk.injEq] at h
      obtain ⟨-, hV, hs⟩ := h
      subst hV
      exact ⟨rfl, rfl, rfl, hs.symm, hfit.1, hfit.2, d, rfl, Or.inl rfl⟩
    · simp only [Prod.mk.injEq] at h
      exact absurd h.1 (by simp)
    · simp only [Prod.mk.injEq] at h
      exact absurd h.1 (by simp)

theorem read_success {v : Video} {s : List Nat} {v' : Video} {s' : List Nat}
    (h : Video.read v s = (none, v', s')) :
    v'.height = v.height ∧ v'.width = v.width ∧ v'.mode = v.mode ∧
    (rectHeader s).2.1 + (rectHeader s).2.2.2 ≤ v.height ∧
    (rectHeader s).1 + (rectHeader s).2.2.1 ≤ v.width ∧
    ∃ d0 data, v'.data = some (applyRect d0 (v.mode.index 'a') (rectHeader s).1
        (rectHeader s).2.1 (rectHeader s).2.2.1 (rectHeader s).2.2.2 data) ∧
      (v.data = some d0 ∨ (v.data = none ∧ d0 = fun _ _ _ => 0)) := by
  rcases Nat.lt_or_ge s.length 12 with hl | hl
  · rw [read_short hl] at h
    simp only [Prod.mk.injEq] at h
    exact absurd h.1 (by simp)
  rw [read_unfold hl] at h
  by_cases h0 : headerEncoding s = 0
  · rw [if_pos h0] at h
    rcases readexactly_cases ((rectHeader s).2.2.2 * (rectHeader s).2.2.1 * 4) (s.drop 12)
      with hre | hre <;> rw [hre] at h <;> dsimp only at h
    · obtain ⟨hh, hw, hm, _, hfy, hfx, d0, hd0, hc⟩ := writeRect_success h
      exact ⟨hh, hw, hm, hfy, hfx, d0, _, hd0, hc⟩
    · simp only [Prod.mk.injEq] at h
      exact absurd h.1 (by simp)
  rw [if_neg h0] at h
  by_cases h6 : headerEncoding s = 6
  · rw [if_pos h6] at h
    rcases read_int_cases 4 (s.drop 12) with hre | hre <;> rw [hre] at h <;> dsimp only at h
    · rcases readexactly_cases (beInt ((s.drop 12).take 4)) ((s.drop 12).drop 4)
        with hre2 | hre2 <;> rw [hre2] at h <;> dsimp only at h
      · obtain ⟨hh, hw, hm, _, hfy, hfx, d0, hd0, hc⟩ := writeRect_success h
        exact ⟨hh, hw, hm, hfy, hfx, d0, _, hd0, hc⟩
      · simp only [Prod.mk.injEq] at h
        exact absurd h.1 (by simp)
    · simp only [Prod.mk.injEq] at h
      exact absurd h.1 (by simp)
  · rw [if_neg h6] at h
    simp only [Prod.mk.injEq] at h
    exact absurd h.1 (by simp)

theorem coveredBy_cons {s : List Nat} {ss : List (List Nat)} {i j : Nat} :
    coveredBy (s :: ss) i j ↔ inHeaderRect s i j ∨ coveredBy ss i j := by
  rw [coveredBy, coveredBy]
  constructor
  · rintro ⟨t, ht, hP⟩
    rcases List.mem_cons.mp ht with rfl | ht'
    · exact Or.inl hP
    · exact Or.inr ⟨t, ht', hP⟩
  · rintro (hP | ⟨t, ht, hP⟩)
    · exact ⟨s, List.mem_cons_self s ss, hP⟩
    · exact ⟨t, List.mem_cons_of_mem _ ht, hP⟩

theorem applyRect_alpha (d : Buffer) (aIdx x y width height : Nat) (data : List Nat)
    (i j : Nat) :
    applyRect d aIdx x y width height data i j aIdx =
      if y ≤ i ∧ i < y + height ∧ x ≤ j ∧ j < x + width then 255 else d i j aIdx := by
  rw [applyRect]
  split
  · rw [if_pos rfl]
  · rfl

theorem readSeq_alpha : ∀ (ss : List (List Nat)) (v v' : Video) (C : Nat → Nat → Prop),
    readSeq v ss = some v' →
    ((∃ d, v.data = some d ∧ ∀ i j,
        (d i j (v.mode.index 'a') = 255 ∨ d i j (v.mode.index 'a') = 0) ∧
        (d i j (v.mode.index 'a') = 255 ↔ C i j)) ∨
      (v.data = none ∧ ∀ i j, ¬ C i j)) →
    v'.height = v.height ∧ v'.width = v.width ∧ v'.mode = v.mode ∧
    ((∃ d', v'.data = some d' ∧ ∀ i j,
        (d' i j (v'.mode.index 'a') = 255 ∨ d' i j (v'.mode.index 'a') = 0) ∧
        (d' i j (v'.mode.index 'a') = 255 ↔ (C i j ∨ coveredBy ss i j))) ∨
      (v'.data = none ∧ ∀ i j, ¬ (C i j ∨ coveredBy ss i j)))
  | [], v, v', C, hr, hinv => by
    rw [readSeq] at hr
    cases Option.some.inj hr
    refine ⟨rfl, rfl, rfl, ?_⟩
    rcases hinv with ⟨d, hd, hP⟩ | ⟨hd, hC⟩
    · left
      refine ⟨d, hd, fun i j => ⟨(hP i j).1, ?_⟩⟩
      rw [(hP i j).2]
      simp [coveredBy]
    · right
      refine ⟨hd, fun i j => ?_⟩
      simp [coveredBy]
      exact hC i j
  | s :: rest, v, v', C, hr, hinv => by
    rw [readSeq] at hr
    rcases hread : Video.read v s with ⟨eo, v1, s1⟩
    rw [hread] at hr
    cases eo with
    | some e =>
      dsimp only at hr
      cases hr
    | none =>
      dsimp only at hr
      obtain ⟨hh, hw, hm, hfy, hfx, d0, pay, hd0, hcase⟩ := read_success hread
      have hinv1 : (∃ d, v1.data = some d ∧ ∀ i j,
          (d i j (v1.mode.index 'a') = 255 ∨ d i j (v1.mode.index 'a') = 0) ∧
          (d i j (v1.mode.index 'a') = 255 ↔ (C i j ∨ inHeaderRect s i j))) ∨
          (v1.data = none ∧ ∀ i j, ¬ (C i j ∨ inHeaderRect s i j)) := by
        left
        refine ⟨_, hd0, fun i j => ?_⟩
        rw [hm, applyRect_alpha]
        rw [inHeaderRect]
        split
        case isTrue hin =>
          refine ⟨Or.inl rfl, ?_⟩
          constructor
          · intro _
            exact Or.inr hin
          · intro _
            rfl
        case isFalse hout =>
          rcases hcase with hvd | ⟨hvd, hz⟩
          · rcases hinv with ⟨d, hd, hP⟩ | ⟨hd, _⟩
            · rw [hvd] at hd
              cases Option.some.inj hd
              refine ⟨(hP i j).1, ?_⟩
              rw [(hP i j).2]
              constructor
              · exact Or.inl
              · rintro (hC | hin)
                · exact hC
                · exact absurd hin hout
            · rw [hvd] at hd
              cases hd
          · rcases hinv with ⟨d, hd, _⟩ | ⟨_, hC⟩
            · rw [hvd] at hd
              cases hd
            · rw [hz]
              refine ⟨Or.inr rfl, ?_⟩
              constructor
              · intro h255
                exact absurd h255 (by norm_num)
              · rintro (hC2 | hin)
                · exact absurd hC2 (hC i j)
                · exact absurd hin hout
      obtain ⟨ih1, ih2, ih3, ih4⟩ :=
        readSeq_alpha rest v1 v' (fun i j => C i j ∨ inHeaderRect s i j) hr hinv1
      refine ⟨by rw [ih1, hh], by rw [ih2, hw], by rw [ih3, hm], ?_⟩
      rcases ih4 with ⟨d', hd', hP⟩ | ⟨hd', hC⟩
      · left
        refine ⟨d', hd', fun i j => ⟨(hP i j).1, ?_⟩⟩
        rw [(hP i j).2, coveredBy_cons]
        tauto
      · right
        refine ⟨hd', fun i j => ?_⟩
        rw [coveredBy_cons]
        have := hC i j
        tauto

/-- C5: starting from an unallocated buffer, after any sequence of
successful Video.read calls is_complete is true iff every pixel of the
buffer lies inside at least one of the decoded rectangles (the buffer is
zero-initialized and each decode forces the alpha bytes of its rectangle to
255 regardless of the payload bytes). -/
theorem claim_C5 (v0 : Video) (ss : List (List Nat)) (v' : Video)
    (h0 : v0.data = none) (hH : 1 ≤ v0.height) (hW : 1 ≤ v0.width)
    (hr : readSeq v0 ss = some v') :
    (v'.is_complete = true ↔
      ∀ i j, i < v0.height → j < v0.width → coveredBy ss i j) := by
  obtain ⟨hh, hw, hm, hP⟩ :=
    readSeq_alpha ss v0 v' (fun _ _ => False) hr (Or.inr ⟨h0, fun _ _ => not_false⟩)
  rcases hP with ⟨d', hd', hP⟩ | ⟨hd', hC⟩
  · rw [is_complete_iff hd']
    constructor
    · intro h i j hi hj
      have h2 := h i j (by omega) (by omega)
      rcases (hP i j).1 with h3 | h3
      · have h4 := (hP i j).2.mp h3
        tauto
      · exact absurd h3 h2
    · intro h i j hi hj
      have h2 := h i j (by omega) (by omega)
      rw [(hP i j).2.mpr (Or.inr h2)]
      omega
  · rw [is_complete_none hd']
    constructor
    · intro h
      cases h
    · intro h
      exact absurd (Or.inr (h 0 0 hH hW)) (hC 0 0)

/-- C5 witness: one successful Raw read covering the whole 1×1 buffer makes
is_complete true. -/
theorem claim_C5_witness :
    ∃ v', readSeq vNone [sOneRect] = some v' ∧ v'.is_complete = true := by
  refine ⟨_, rfl, ?_⟩
  refine (claim_C5 vNone [sOneRect] _ rfl (by decide) (by decide) rfl).mpr ?_
  intro i j hi hj
  refine ⟨sOneRect, by simp, ?_⟩
  rw [inHeaderRect]
  have hrh : rectHeader sOneRect = (0, 0, 1, 1) := rfl
  rw [hrh]
  dsimp only
  revert hi hj
  show i < vNone.height → j < vNone.width → _
  dsimp only [vNone]
  omega
